import Mathlib

/-!
Verification of the HIP operator kernels of this repository against their
natural-language specification.  Each GPU kernel and operator entry point is
shallowly embedded as a Lean function: tensors are carried as a shape list
together with a flat data function, float arithmetic is read as exact real or
rational arithmetic, device kernels are sequentialised (their parallel loops
are data-race free or use atomic/commutative updates), and fatal
CAFFE_ENFORCE checks become `Except.error` results.
-/

/-- Shallow model of a caffe2 tensor on one device: a shape (list of
dimension sizes) together with the flat row-major data, modelled as a total
function from flat index to element. -/
structure HTensor (α : Type) where
  dims : List ℕ
  data : ℕ → α

instance (α : Type) [Inhabited α] : Inhabited (HTensor α) :=
  ⟨⟨[], fun _ => default⟩⟩

/-- Model of caffe2 Tensor::size(): the number of elements, the product of
all dimensions. -/
def HTensor.size {α : Type} (t : HTensor α) : ℕ := t.dims.prod

/-- Model of caffe2 Tensor::size_from_dim(k): product of dimensions from
index k on. -/
def HTensor.sizeFromDim {α : Type} (t : HTensor α) (k : ℕ) : ℕ :=
  (t.dims.drop k).prod

/-- True exactly on `Except.ok` results; an `Except.error` models a fatal
CAFFE_ENFORCE / LOG(FATAL) abort. -/
def exceptOk {α : Type} (e : Except String α) : Bool :=
  match e with
  | .ok _ => true
  | .error _ => false

/-! ## NumHipDevices (caffe2/core/common_hip.cc) -/

/-- The hip error codes distinguished by the switch in `NumHipDevices`;
`otherError` stands for every code reaching the `default:` arm. -/
inductive HipError where
  | success
  | noDevice
  | insufficientDriver
  | initializationError
  | unknownError
  | memoryAllocation
  | otherError
deriving DecidableEq, Repr

/-- The switch statement of `NumHipDevices` acting on the result of one
`hipGetDeviceCount` query: `n` is the count the query wrote, `asan` is the
CAFFE2_ASAN_ENABLED compile flag.  `Except.error` models the LOG(FATAL)
arms. -/
def hipHandleDeviceCount (asan : Bool) (e : HipError) (n : ℕ) : Except String ℕ :=
  match e with
  | .success => .ok n
  | .noDevice => .ok 0
  | .insufficientDriver => .ok 0
  | .initializationError => .ok 0
  | .unknownError => .ok 0
  | .memoryAllocation =>
      if asan then .ok 0
      else .error "Unexpected error from hipGetDeviceCount"
  | .otherError => .error "Unexpected error from hipGetDeviceCount"

/-- One call to `NumHipDevices` given the cached static `count` state
(initially -1) and the query result `q` the runtime would deliver.  Returns
the call result, the new cached state, and whether the runtime was actually
queried. -/
def numHipDevicesCall (asan : Bool) (cached : ℤ) (q : HipError × ℕ) :
    Except String (ℕ × ℤ × Bool) :=
  if cached < 0 then
    (hipHandleDeviceCount asan q.1 q.2).map (fun c => (c, (c : ℤ), true))
  else
    .ok (cached.toNat, cached, false)

/-! ## BooleanMask (caffe2/operators/boolean_mask_ops_hip.cc) -/

/-- The index sequence written by hipcub::DeviceSelect::Flagged over a
counting iterator flagged by the mask: the positions below `outerSize` at
which the mask is true, in increasing order. -/
def booleanMaskIndices (outerSize : ℕ) (mask : ℕ → Bool) : List ℕ :=
  (List.range outerSize).filter (fun i => mask i)

/-- The `dest` output written by BooleanMaskCopyKernel:
dest[i * numBytes + j] = src[indices[i] * numBytes + j], modelled at element
granularity (`row` elements per outer slice, the kernel's
numBytes / itemsize = src.size_from_dim(1)); positions the kernel does not
write are modelled as 0. -/
def booleanMaskDest (src : HTensor ℚ) (mask : HTensor Bool) : HTensor ℚ :=
  let outerSize := mask.dims.getD 0 0
  let indices := booleanMaskIndices outerSize mask.data
  let row := (src.dims.drop 1).prod
  ⟨src.dims.set 0 indices.length,
    fun t =>
      if t < indices.length * row then
        src.data (indices.getD (t / row) 0 * row + t % row)
      else 0⟩

/-- BooleanMaskOp<HIPContext>::RunOnDevice: the three CAFFE_ENFORCE shape
checks, then the masked copy and, when a second output is requested, the
selected indices. -/
def booleanMaskRun (src : HTensor ℚ) (mask : HTensor Bool) (wantIndices : Bool) :
    Except String (HTensor ℚ × Option (HTensor ℕ)) :=
  if src.dims.length < 1 then .error "src.ndim() >= 1 failed"
  else if mask.dims.length ≠ 1 then .error "mask.ndim() == 1 failed"
  else if src.dims.getD 0 0 ≠ mask.dims.getD 0 0 then
    .error "src.dims()[0] == mask.dims()[0] failed"
  else
    let indices := booleanMaskIndices (mask.dims.getD 0 0) mask.data
    .ok (booleanMaskDest src mask,
      if wantIndices then some ⟨[indices.length], fun k => indices.getD k 0⟩ else none)

/-! ## LayerNorm forward (caffe2/operators/layer_norm_op_hip.cc) -/

/-- The `mean` output of LayerNormOp<HIPContext>::DoRunWithType<float>: the
input is carried as its shape `dims` and flattened data `x`, `axis` is the
canonical axis, so rows have `right = prod (drop axis dims)` elements.  The
segmented reduce with offsets `right * i` sums each row and `math::Scale`
multiplies by `1/right`; the `right == 1` branch copies the input.  Float
arithmetic is read as real arithmetic. -/
noncomputable def lnMean (dims : List ℕ) (axis : ℕ) (x : ℕ → ℝ) : ℕ → ℝ :=
  let right := (dims.drop axis).prod
  if right = 1 then fun i => x i
  else fun i => (1 / (right : ℝ)) * ∑ j ∈ Finset.range right, x (right * i + j)

/-- The `stdev` output of LayerNorm: the segmented reduce over the
square-transform iterator and `math::Scale` give `E[x^2]` per row, and
`sqrtXMinusYSquaredKernel` forms `sqrt(E[x^2] - mean * mean + eps)`; the
`right == 1` branch sets `sqrt(eps)` directly. -/
noncomputable def lnStdev (dims : List ℕ) (axis : ℕ) (eps : ℝ) (x : ℕ → ℝ) : ℕ → ℝ :=
  let right := (dims.drop axis).prod
  if right = 1 then fun _ => Real.sqrt eps
  else fun i =>
    Real.sqrt ((1 / (right : ℝ)) *
        (∑ j ∈ Finset.range right, x (right * i + j) * x (right * i + j)) -
      lnMean dims axis x i * lnMean dims axis x i + eps)

/-- The normalized output of LayerNorm, `normalizeKernel`:
out[i] = (x[i] - mu[i / right]) / sigma[i / right]. -/
noncomputable def lnOut (dims : List ℕ) (axis : ℕ) (eps : ℝ) (x : ℕ → ℝ) : ℕ → ℝ :=
  let right := (dims.drop axis).prod
  fun idx => (x idx - lnMean dims axis x (idx / right)) / lnStdev dims axis eps x (idx / right)

/-- LayerNormOp<HIPContext>::DoRunWithType<float>: the rank check
CAFFE_ENFORCE_GE(input.dims().size(), 2) followed by the three outputs
(mean, stdev, normalized output). -/
noncomputable def layerNormRun (dims : List ℕ) (axis : ℕ) (eps : ℝ) (x : ℕ → ℝ) :
    Except String ((ℕ → ℝ) × (ℕ → ℝ) × (ℕ → ℝ)) :=
  if dims.length < 2 then .error "LayerNorm requires input dim >= 2"
  else .ok (lnMean dims axis x, lnStdev dims axis eps x, lnOut dims axis eps x)

/-! ## Adagrad update (caffe2/sgd/adagrad_op_hip.cc) -/

/-- AdagradUpdate kernel, new moment: nh[i] = decay * h[i] + g[i] * g[i]. -/
def adagradUpdateNH (decay : ℝ) (h g : ℕ → ℝ) (i : ℕ) : ℝ :=
  decay * h i + g i * g i

/-- AdagradUpdate kernel, new parameter:
nw[i] = w[i] + lr[0] * g[i] / (sqrt(nh[i]) + epsilon). -/
noncomputable def adagradUpdateNW (w g h : ℕ → ℝ) (eps decay lr0 : ℝ) (i : ℕ) : ℝ :=
  w i + lr0 * g i / (Real.sqrt (adagradUpdateNH decay h g i) + eps)

/-- HIPSparseAdagradOp constructor: CAFFE_ENFORCE_EQ(decay, 1.0); the float
argument is modelled as a rational. -/
def hipSparseAdagradCtor (decay : ℚ) : Except String Unit :=
  if decay = 1 then .ok () else .error "Decay is not supported for SparseAdagradOp"

/-! ## SequenceMask (caffe2/operators/boolean_mask_ops_hip.cc) -/

/-- sequenceMaskKernel, B < 0 branch: out[index] with i = index / M,
j = index % M is fill when j >= seq_lengths[i], else in[index]. -/
def sequenceMaskKernelNB (M : ℕ) (seq : ℕ → ℤ) (fill : ℚ) (x : ℕ → ℚ) : ℕ → ℚ :=
  fun idx => if ((idx % M : ℕ) : ℤ) ≥ seq (idx / M) then fill else x idx

/-- sequenceMaskKernel, B >= 0 branch: with k = index % M and
j = (index / M) % N, out is fill when k >= seq_lengths[j]. -/
def sequenceMaskKernelB (N M : ℕ) (seq : ℕ → ℤ) (fill : ℚ) (x : ℕ → ℚ) : ℕ → ℚ :=
  fun idx => if ((idx % M : ℕ) : ℤ) ≥ seq ((idx / M) % N) then fill else x idx

/-- repeatedSequenceMaskKernel: with i = index / (D * M) and
j = (index / D) % M, out is fill when j >= seq_lengths[i] (here M is the
kernel's masked_dims argument and D the repeated_dims). -/
def repeatedSequenceMaskKernel (M D : ℕ) (seq : ℕ → ℤ) (fill : ℚ) (x : ℕ → ℚ) : ℕ → ℚ :=
  fun idx => if ((idx / D % M : ℕ) : ℤ) ≥ seq (idx / (D * M)) then fill else x idx

/-- windowMaskKernel, B < 0 branch: fill outside
[window_centers[i] - radius, window_centers[i] + radius]. -/
def windowMaskKernelNB (M : ℕ) (win : ℕ → ℤ) (radius : ℤ) (fill : ℚ) (x : ℕ → ℚ) :
    ℕ → ℚ :=
  fun idx =>
    if ((idx % M : ℕ) : ℤ) < win (idx / M) - radius ∨
        ((idx % M : ℕ) : ℤ) > win (idx / M) + radius then fill else x idx

/-- windowMaskKernel, B >= 0 branch. -/
def windowMaskKernelB (N M : ℕ) (win : ℕ → ℤ) (radius : ℤ) (fill : ℚ) (x : ℕ → ℚ) :
    ℕ → ℚ :=
  fun idx =>
    if ((idx % M : ℕ) : ℤ) < win ((idx / M) % N) - radius ∨
        ((idx % M : ℕ) : ℤ) > win ((idx / M) % N) + radius then fill else x idx

/-- upperMaskKernel, B < 0 branch: fill when j > i. -/
def upperMaskKernelNB (M : ℕ) (fill : ℚ) (x : ℕ → ℚ) : ℕ → ℚ :=
  fun idx => if idx % M > idx / M then fill else x idx

/-- upperMaskKernel, B >= 0 branch: fill when k > j. -/
def upperMaskKernelB (N M : ℕ) (fill : ℚ) (x : ℕ → ℚ) : ℕ → ℚ :=
  fun idx => if idx % M > (idx / M) % N then fill else x idx

/-- lowerMaskKernel, B < 0 branch: fill when j < i. -/
def lowerMaskKernelNB (M : ℕ) (fill : ℚ) (x : ℕ → ℚ) : ℕ → ℚ :=
  fun idx => if idx % M < idx / M then fill else x idx

/-- lowerMaskKernel, B >= 0 branch: fill when k < j. -/
def lowerMaskKernelB (N M : ℕ) (fill : ℚ) (x : ℕ → ℚ) : ℕ → ℚ :=
  fun idx => if idx % M < (idx / M) % N then fill else x idx

/-- upperDiagMaskKernel, B < 0 branch: fill when j >= i. -/
def upperDiagMaskKernelNB (M : ℕ) (fill : ℚ) (x : ℕ → ℚ) : ℕ → ℚ :=
  fun idx => if idx % M ≥ idx / M then fill else x idx

/-- upperDiagMaskKernel, B >= 0 branch: fill when k >= j. -/
def upperDiagMaskKernelB (N M : ℕ) (fill : ℚ) (x : ℕ → ℚ) : ℕ → ℚ :=
  fun idx => if idx % M ≥ (idx / M) % N then fill else x idx

/-- lowerDiagMaskKernel, B < 0 branch: fill when j <= i. -/
def lowerDiagMaskKernelNB (M : ℕ) (fill : ℚ) (x : ℕ → ℚ) : ℕ → ℚ :=
  fun idx => if idx % M ≤ idx / M then fill else x idx

/-- lowerDiagMaskKernel, B >= 0 branch: fill when k <= j. -/
def lowerDiagMaskKernelB (N M : ℕ) (fill : ℚ) (x : ℕ → ℚ) : ℕ → ℚ :=
  fun idx => if idx % M ≤ (idx / M) % N then fill else x idx

/-- SequenceMaskOp<HIPContext>::DoRunWithType<T>.  The input is handed to
the kernels as N = left rows of M = right elements; `batchDim` is the
batch_dim value when a batch argument is given (the kernels only test its
sign) and `repeatDims` the repeated_dims = size_from_dim(repeat_from) when
repeat_from_axis is given, in which case the sequence kernel masks
M / repeatDims positions; left/right/batch_dim themselves come from the
framework's size_to_dim/size_from_dim/size_between_dim helpers outside
this fragment.  The effective fill value is
convert(grad_ ? 0.0f : fill_val_); an unsupported mode string hits
CAFFE_ENFORCE(false). -/
def seqMaskRun (mode : String) (grad : Bool) (fv : ℚ) (N M : ℕ)
    (batchDim : Option ℕ) (repeatDims : Option ℕ) (seq win : ℕ → ℤ)
    (radius : ℤ) (x : ℕ → ℚ) : Except String (ℕ → ℚ) :=
  let fill : ℚ := if grad then 0 else fv
  if mode = "sequence" then
    match repeatDims with
    | some D => .ok (repeatedSequenceMaskKernel (M / D) D seq fill x)
    | none =>
      match batchDim with
      | some _ => .ok (sequenceMaskKernelB N M seq fill x)
      | none => .ok (sequenceMaskKernelNB M seq fill x)
  else if mode = "window" then
    match batchDim with
    | some _ => .ok (windowMaskKernelB N M win radius fill x)
    | none => .ok (windowMaskKernelNB M win radius fill x)
  else if mode = "upper" then
    match batchDim with
    | some _ => .ok (upperMaskKernelB N M fill x)
    | none => .ok (upperMaskKernelNB M fill x)
  else if mode = "lower" then
    match batchDim with
    | some _ => .ok (lowerMaskKernelB N M fill x)
    | none => .ok (lowerMaskKernelNB M fill x)
  else if mode = "upperdiag" then
    match batchDim with
    | some _ => .ok (upperDiagMaskKernelB N M fill x)
    | none => .ok (upperDiagMaskKernelNB M fill x)
  else if mode = "lowerdiag" then
    match batchDim with
    | some _ => .ok (lowerDiagMaskKernelB N M fill x)
    | none => .ok (lowerDiagMaskKernelNB M fill x)
  else .error "Unsupported mode for SequenceMaskOp!"

/-! ## SparseToDense (caffe2/operators/sparse_to_dense_op_hip.cc) -/

/-- Sequentialisation of the atomicAdd scatter loop of SparseToDenseKernel:
starting from `init`, for i = 0..N-1 add vals[i] into position tgt(i) (the
atomic adds commute, so the execution order is immaterial). -/
def scatterAddFold (N : ℕ) (tgt : ℕ → ℕ) (vals : ℕ → ℚ) (init : ℕ → ℚ) : ℕ → ℚ :=
  (List.range N).foldl (fun d i => Function.update d (tgt i) (d (tgt i) + vals i)) init

/-- SparseToDenseKernel target position: idx = indices[i / block_nitems]
and dst_idx = block_nitems * idx + i % block_nitems; indices are int32, so
the expression is computed in ℤ (the operator is meaningful only for
0 <= indices[j] < output_first_dim). -/
def sparseToDenseTgt (block : ℕ) (indices : ℕ → ℤ) (i : ℕ) : ℕ :=
  ((block : ℤ) * indices (i / block) + ((i % block : ℕ) : ℤ)).toNat

/-- The output tensor of SparseToDenseOp: shape values.dims with dims[0]
replaced by `outputFirstDim`, data zero-initialised by math::Set and then
scatter-added by SparseToDenseKernel over N = block_nitems * len flat
gradient positions. -/
def sparseToDenseOut (outputFirstDim : ℕ) (indices : HTensor ℤ) (values : HTensor ℚ) :
    HTensor ℚ :=
  let block := (values.dims.drop 1).prod
  ⟨values.dims.set 0 outputFirstDim,
    scatterAddFold (block * indices.size) (sparseToDenseTgt block indices.data)
      values.data (fun _ => 0)⟩

/-- SparseToDenseOp<HIPContext>::DoRunWithType2<TInd, TData>: the three
CAFFE_ENFORCE shape checks, then the zero-init-and-scatter output.
`outputFirstDim` is the result of GetOutputFirstDim, a framework helper
outside this fragment, taken as a parameter; the code's remaining
CAFFE_ENFORCE_EQ(output->size(), output_first_dim * block_nitems) holds by
construction here. -/
def sparseToDenseRun (outputFirstDim : ℕ) (indices : HTensor ℤ) (values : HTensor ℚ) :
    Except String (HTensor ℚ) :=
  if indices.dims.length ≠ 1 then .error "sparse_indices.ndim() == 1 failed"
  else if values.dims.length < 1 then .error "sparse_values.ndim() >= 1 failed"
  else if indices.size ≠ values.dims.getD 0 0 then
    .error "sparse_indices.size() == sparse_values.dim(0) failed"
  else .ok (sparseToDenseOut outputFirstDim indices values)

/-! ## BooleanUnmask (caffe2/operators/boolean_unmask_ops_hip.cc) -/

/-- ComputeIndicesKernel: for each position i, the index of the first mask
that is true at i (`List.findIdx` returns the number of masks when none is
true; the kernel instead hits HIP_KERNEL_ASSERT(false) in that case). -/
def unmaskIdx (masks : List (HTensor Bool)) (i : ℕ) : ℕ :=
  masks.findIdx (fun m => m.data i)

/-- FillValuesKernel's running counter k for position i: the number of
earlier positions assigned to the same mask. -/
def unmaskCountBefore (masks : List (HTensor Bool)) (i : ℕ) : ℕ :=
  ((List.range i).filter (fun t => unmaskIdx masks t == unmaskIdx masks i)).length

/-- BooleanUnmaskOp<HIPContext>::RunOnDevice over the (mask, value) input
pairs (Input(2i), Input(2i+1)): maskSize is Input(0).size(); each mask must
be rank 1 of size maskSize and each value rank 1 (CAFFE_ENFORCE); the two
device-side HIP_KERNEL_ASSERTs (every position covered by some mask, and
each value tensor exactly consumed) are modelled as errors; the output is
dest[i] = values[j][k] with j the first mask true at i and k the number of
earlier positions with the same j. -/
def booleanUnmaskRun (inputs : List (HTensor Bool × HTensor ℚ)) :
    Except String (HTensor ℚ) :=
  let maskSize := (inputs.headD default).1.size
  let masks := inputs.map Prod.fst
  if ¬ (inputs.all fun p =>
      p.1.dims.length == 1 && p.1.size == maskSize && p.2.dims.length == 1) then
    .error "BooleanUnmask mask or value shape check failed"
  else if ¬ ((List.range maskSize).all fun i => unmaskIdx masks i < masks.length) then
    .error "KERNEL ASSERT: position not covered by any mask"
  else if ¬ ((List.range masks.length).all fun j =>
      ((List.range maskSize).filter fun i => unmaskIdx masks i == j).length ==
        (inputs.getD j default).2.size) then
    .error "KERNEL ASSERT: valueSizes[j] == k failed"
  else
    .ok ⟨[maskSize],
      fun i => (inputs.getD (unmaskIdx masks i) default).2.data (unmaskCountBefore masks i)⟩

/-! ## RMACRegions (caffe2/operators/rmac_regions_op_hip.cc) -/

/-- One region of interest row [batch_id, x1, y1, x2, y2] as written by
RMACRegionsKernel (coordinates are C ints). -/
structure RMACRoi where
  batch : ℕ
  x1 : ℤ
  y1 : ℤ
  x2 : ℤ
  y2 : ℤ

/-- The do-while loop of RMACRegionsKernel that finds the scale l of a
roi_id: starting at l = 1, subtract (l + Wd) * (l + Hd) regions per scale
until fewer remain.  The loop strictly decreases the remaining count each
iteration (the per-scale count is at least 1 for l >= 1), so fuel
rid + 1 always reaches the terminating branch. -/
def rmacScaleGo (Wd Hd : ℕ) : ℕ → ℕ → ℕ → ℕ × ℕ
  | 0, l, rem => (l, rem)
  | fuel + 1, l, rem =>
      if rem < (l + Wd) * (l + Hd) then (l, rem)
      else rmacScaleGo Wd Hd fuel (l + 1) (rem - (l + Wd) * (l + Hd))

/-- Scale and residual roi id for a given roi_id. -/
def rmacFindScale (Wd Hd rid : ℕ) : ℕ × ℕ := rmacScaleGo Wd Hd (rid + 1) 1 rid

/-- The border-clamped first coordinate of a region: c = (int)(b * i), then
if c + region_size overshoots the limit, c -= (c + region_size - limit).
The float-to-int cast truncates; b * i is nonnegative here, so truncation
is the floor. -/
def rmacClampCoord (limit rs : ℕ) (b : ℚ) (i : ℕ) : ℤ :=
  let c : ℤ := ⌊b * (i : ℚ)⌋
  if (limit : ℤ) < c + rs then c - (c + rs - limit) else c

/-- RMACRegionsKernel for flat output index `index` (with nr = num_rois
regions per image): batch_id = index / nr, roi_id = index % nr, scale l
from the do-while loop, region_size = 2 * min(H, W) / (l + 1), strides
bw = (W - region_size) / (l + Wd - 1) and bh likewise (0 when the
denominator is not positive), grid position i = roi_id / (l + Hd),
j = roi_id % (l + Hd), and the border-clamped box
[x1, y1, x1 + region_size - 1, y1 + region_size - 1]. -/
def rmacRegionOutput (W H nr Wd Hd index : ℕ) : RMACRoi :=
  let rid := index % nr
  let ls := rmacFindScale Wd Hd rid
  let l := ls.1
  let rem := ls.2
  let rs := 2 * min H W / (l + 1)
  let bw : ℚ := if 1 < l + Wd then ((W : ℚ) - (rs : ℚ)) / ((l : ℚ) + (Wd : ℚ) - 1) else 0
  let bh : ℚ := if 1 < l + Hd then ((H : ℚ) - (rs : ℚ)) / ((l : ℚ) + (Hd : ℚ) - 1) else 0
  let i := rem / (l + Hd)
  let j := rem % (l + Hd)
  let x1c := rmacClampCoord W rs bw i
  let y1c := rmacClampCoord H rs bh j
  ⟨index / nr, x1c, y1c, x1c + rs - 1, y1c + rs - 1⟩

/-- The per-step objective of NumRMACRegionsKernel:
|(minW^2 - minW * (diff / step)) / minW^2 - overlap|. -/
def rmacStepValue (W H : ℕ) (overlap : ℚ) (k : ℕ) : ℚ :=
  let minW := min H W
  let diff := max H W - minW
  |(((minW * minW : ℕ) : ℚ) - (minW : ℚ) * ((diff : ℚ) / (k : ℚ))) /
      ((minW * minW : ℕ) : ℚ) - overlap|

/-- The arg-min reduction of NumRMACRegionsKernel over steps
min_step..max_step: smallest objective value wins, ties prefer the larger
step (the cub KeyValuePair operator<); the initial accumulator value is
FLT_MAX. -/
def rmacArgminStep (W H minStep maxStep : ℕ) (overlap : ℚ) : ℕ :=
  ((List.range (maxStep - minStep + 1)).map (fun idx => minStep + idx)).foldl
    (fun best k =>
      let v := rmacStepValue W H overlap k
      if v < best.2 ∨ (v = best.2 ∧ best.1 < k) then (k, v) else best)
    (0, (340282346638528859811704183484516925440 : ℚ)) |>.1

/-- The total region count of NumRMACRegionsKernel: scales l = 1..scales
contribute (l + Wd) * (l + Hd) regions when region_size > 0. -/
def numRMACRegions (W H Wd Hd scales : ℕ) : ℕ :=
  ∑ idx ∈ Finset.range scales,
    (if 0 < 2 * min H W / (idx + 1 + 1) then (idx + 1 + Wd) * (idx + 1 + Hd) else 0)

/-- RMACRegionsOp<HIPContext>::RunOnDevice: an empty input returns
immediately (the output is not even resized and no kernel is launched);
otherwise batch_size = dim 0, H = dim 2, W = dim 3, NumRMACRegionsKernel
computes (num_rois, Wd, Hd) with min_step 1 and max_step 6, the output is
resized to [batch_size * num_rois, 5] and RMACRegionsKernel fills it.
Returns (output, kernels launched?). -/
def rmacRegionsRun (X : HTensor ℚ) (overlap : ℚ) (scales : ℕ) (oldOut : HTensor ℚ) :
    HTensor ℚ × Bool :=
  if X.size = 0 then (oldOut, false)
  else
    let batch := X.dims.getD 0 0
    let H := X.dims.getD 2 0
    let W := X.dims.getD 3 0
    let step := rmacArgminStep W H 1 6 overlap
    let Wd := if H < W then step else 0
    let Hd := if W < H then step else 0
    let nr := numRMACRegions W H Wd Hd scales
    let N := batch * nr
    (⟨[N, 5],
      fun t =>
        if t < N * 5 then
          let r := rmacRegionOutput W H nr Wd Hd (t / 5)
          match t % 5 with
          | 0 => (r.batch : ℚ)
          | 1 => (r.x1 : ℚ)
          | 2 => (r.y1 : ℚ)
          | 3 => (r.x2 : ℚ)
          | _ => (r.y2 : ℚ)
        else 0⟩, true)

/-! ## Sparse Adagrad operators (caffe2/sgd/adagrad_op_hip.cc) -/

/-- SparseAdagradKernel sequentialised: for each flat gradient index i,
paramIdx = indices[i / grad_slice_sz] * grad_slice_sz + i % grad_slice_sz,
the new moment is grad[i]^2 + param_mom[paramIdx] (mixed_add) and the new
parameter is LR * grad[i] / (sqrt(mom_new) + epsilon) + param[paramIdx]. -/
noncomputable def sparseAdagradKernelFold (N slice : ℕ) (indices : ℕ → ℤ)
    (g : ℕ → ℝ) (lr0 eps : ℝ) (pm : (ℕ → ℝ) × (ℕ → ℝ)) : (ℕ → ℝ) × (ℕ → ℝ) :=
  (List.range N).foldl
    (fun pm i =>
      let paramIdx := (indices (i / slice) * (slice : ℤ) + ((i % slice : ℕ) : ℤ)).toNat
      let momNew := g i * g i + pm.2 paramIdx
      let paramNew := lr0 * g i / (Real.sqrt momNew + eps) + pm.1 paramIdx
      (Function.update pm.1 paramIdx paramNew, Function.update pm.2 paramIdx momNew))
    pm

/-- HIPSparseAdagradOp: the RunOnDevice shape enforces, DoRunWithType's
early return on an empty INDICES input, DoRunWithType2's early return on a
size-0 GRAD input ("not even launching the kernel"), else the kernel.
Returns (kernel launched?, param out, moment out). -/
noncomputable def hipSparseAdagradRun (param mom : HTensor ℝ) (indices : HTensor ℤ)
    (grad : HTensor ℝ) (lr : HTensor ℝ) (eps : ℝ) :
    Except String (Bool × (ℕ → ℝ) × (ℕ → ℝ)) :=
  if param.size ≠ mom.size then .error "PARAM and MOMENT_1 sizes differ"
  else if lr.size ≠ 1 then .error "LR must have size 1"
  else if (param.dims.drop 1).prod ≠ (grad.dims.drop indices.dims.length).prod then
    .error "PARAM and GRAD slice sizes differ"
  else if indices.size = 0 then .ok (false, param.data, mom.data)
  else if grad.size = 0 then .ok (false, param.data, mom.data)
  else
    .ok (true,
      sparseAdagradKernelFold grad.size ((grad.dims.drop indices.dims.length).prod)
        indices.data grad.data (lr.data 0) eps (param.data, mom.data))

/-- RowWiseSparseAdagradKernel sequentialised: for each gradient row i the
block adds the mean of the squared row gradients to param_mom[index],
computes step = lr / (sqrt(param_mom[index]) + epsilon) and steps each
parameter of row `index`. -/
noncomputable def rowWiseSparseAdagradKernelFold (M Nc : ℕ) (indices : ℕ → ℤ)
    (g : ℕ → ℝ) (lr0 eps : ℝ) (pm : (ℕ → ℝ) × (ℕ → ℝ)) : (ℕ → ℝ) × (ℕ → ℝ) :=
  (List.range M).foldl
    (fun pm i =>
      let index := (indices i).toNat
      let momNew :=
        pm.2 index + (∑ j ∈ Finset.range Nc, g (i * Nc + j) * g (i * Nc + j)) / (Nc : ℝ)
      let mom2 := Function.update pm.2 index momNew
      let step := lr0 / (Real.sqrt momNew + eps)
      let param2 := (List.range Nc).foldl
        (fun p j =>
          Function.update p (index * Nc + j) (p (index * Nc + j) + g (i * Nc + j) * step))
        pm.1
      (param2, mom2))
    pm

/-- RowWiseSparseAdagradOp<float, HIPContext>::DoRunWithType<SIndex>: a
size-0 GRAD input returns immediately without launching the kernel; else
GRAD_M = dim 0, GRAD_N = size / GRAD_M and the kernel runs.  Returns
(kernel launched?, param out, moment out). -/
noncomputable def rowWiseSparseAdagradRun (param mom : HTensor ℝ) (indices : HTensor ℤ)
    (grad : HTensor ℝ) (lr : HTensor ℝ) (eps : ℝ) : Bool × (ℕ → ℝ) × (ℕ → ℝ) :=
  if grad.size = 0 then (false, param.data, mom.data)
  else
    (true,
      rowWiseSparseAdagradKernelFold (grad.dims.getD 0 0)
        (grad.size / grad.dims.getD 0 0) indices.data grad.data (lr.data 0) eps
        (param.data, mom.data))

/-- C4 counterexample: the claim states that every error other than
no-device, insufficient-driver and driver-initialization is fatal, but the
code maps `hipErrorUnknown` (a code distinct from all three graceful ones
and from success) to a non-fatal return of 0 devices. -/
theorem numHipDevices_unknownError_not_fatal :
    hipHandleDeviceCount false HipError.unknownError 7 = Except.ok 0 ∧
    HipError.unknownError ≠ HipError.success ∧
    HipError.unknownError ≠ HipError.noDevice ∧
    HipError.unknownError ≠ HipError.insufficientDriver ∧
    HipError.unknownError ≠ HipError.initializationError := by
  refine ⟨rfl, ?_, ?_, ?_, ?_⟩ <;> decide

/-- C4 (amended): `NumHipDevices` queries the runtime only when the cached
count is negative, caches the (necessarily nonnegative) result of any
non-fatal call, and answers from the cache without querying afterwards; a
successful query returns its count, the no-device, insufficient-driver,
driver-initialization and unknown-error conditions degrade gracefully to 0
(as does a memory-allocation error in ASAN builds), and every other error
is fatal. -/
theorem numHipDevices_caches_and_degrades (asan : Bool) (e : HipError) (n : ℕ)
    (cached : ℤ) (q : HipError × ℕ) :
    (hipHandleDeviceCount asan HipError.success n = Except.ok n) ∧
    (e = HipError.noDevice ∨ e = HipError.insufficientDriver ∨
        e = HipError.initializationError ∨ e = HipError.unknownError →
      hipHandleDeviceCount asan e n = Except.ok 0) ∧
    (asan = true → hipHandleDeviceCount asan HipError.memoryAllocation n = Except.ok 0) ∧
    (asan = false → exceptOk (hipHandleDeviceCount asan HipError.memoryAllocation n) = false) ∧
    (exceptOk (hipHandleDeviceCount asan HipError.otherError n) = false) ∧
    (0 ≤ cached → numHipDevicesCall asan cached q = .ok (cached.toNat, cached, false)) ∧
    (∀ c st b, numHipDevicesCall asan cached q = .ok (c, st, b) →
      0 ≤ st ∧ (b = true → cached < 0)) := by
  refine ⟨rfl, ?_, ?_, ?_, ?_, ?_, ?_⟩
  · rintro (rfl | rfl | rfl | rfl) <;> rfl
  · rintro rfl; rfl
  · rintro rfl; rfl
  · rfl
  · intro h
    simp only [numHipDevicesCall, if_neg (not_lt.mpr h)]
  · intro c st b hcall
    by_cases hc : cached < 0
    · simp only [numHipDevicesCall, if_pos hc] at hcall
      cases hq : hipHandleDeviceCount asan q.1 q.2 with
      | error msg => rw [hq] at hcall; exact absurd hcall (by simp [Except.map])
      | ok m =>
        rw [hq] at hcall
        simp only [Except.map, Except.ok.injEq] at hcall
        obtain ⟨rfl, rfl, rfl⟩ := hcall
        exact ⟨Int.natCast_nonneg _, fun _ => hc⟩
    · simp only [numHipDevicesCall, if_neg hc] at hcall
      obtain ⟨rfl, rfl, rfl⟩ := hcall
      exact ⟨not_lt.mp hc, fun h => by simp at h⟩

/-- C4 witness: the amended theorem instantiated at a concrete cached state
and query. -/
theorem numHipDevices_caches_and_degrades_witness :
    hipHandleDeviceCount false HipError.noDevice 5 = Except.ok 0 ∧
    numHipDevicesCall false 3 (HipError.success, 9) = .ok (3, 3, false) := by
  refine ⟨?_, ?_⟩
  · exact (numHipDevices_caches_and_degrades false HipError.noDevice 5 3
      (HipError.success, 9)).2.1 (Or.inl rfl)
  · exact (numHipDevices_caches_and_degrades false HipError.noDevice 5 3
      (HipError.success, 9)).2.2.2.2.2.1 (by decide)

/-- C1: for a float input of rank >= 2 split by the canonical axis into
`left` rows of `right` elements, LayerNorm produces mean[i] = (1/right) *
sum_j X[i,j], stdev[i] = sqrt((1/right) * sum_j X[i,j]^2 - mean[i]^2 + eps)
and out[i,j] = (X[i,j] - mean[i]) / stdev[i]; an input of rank < 2 is
rejected by a fatal check. -/
theorem layerNorm_forward_formulas (dims : List ℕ) (axis : ℕ) (eps : ℝ) (x : ℕ → ℝ)
    (left right : ℕ) (hl : left = (dims.take axis).prod)
    (hr : right = (dims.drop axis).prod) :
    (dims.length < 2 → exceptOk (layerNormRun dims axis eps x) = false) ∧
    (2 ≤ dims.length → layerNormRun dims axis eps x =
      .ok (lnMean dims axis x, lnStdev dims axis eps x, lnOut dims axis eps x)) ∧
    (0 < right → ∀ i j, i < left → j < right →
      lnMean dims axis x i =
        (1 / (right : ℝ)) * ∑ k ∈ Finset.range right, x (right * i + k) ∧
      lnStdev dims axis eps x i = Real.sqrt
          ((1 / (right : ℝ)) * (∑ k ∈ Finset.range right, x (right * i + k) ^ 2) -
            lnMean dims axis x i ^ 2 + eps) ∧
      lnOut dims axis eps x (right * i + j) =
        (x (right * i + j) - lnMean dims axis x i) / lnStdev dims axis eps x i) := by
  subst hl hr
  refine ⟨?_, ?_, ?_⟩
  · intro hlt
    simp [layerNormRun, hlt, exceptOk]
  · intro hge
    rw [layerNormRun, if_neg (not_lt.mpr hge)]
  · intro hpos i j hi hj
    by_cases h1 : (dims.drop axis).prod = 1
    · rw [h1] at hj
      interval_cases j
      refine ⟨by simp [lnMean, h1], by simp [lnStdev, lnMean, h1],
        by simp [lnOut, lnMean, lnStdev, h1]⟩
    · have hdiv : ((dims.drop axis).prod * i + j) / (dims.drop axis).prod = i := by
        rw [Nat.mul_add_div hpos, Nat.div_eq_of_lt hj, Nat.add_zero]
      refine ⟨?_, ?_, ?_⟩
      · simp only [lnMean, if_neg h1]
      · simp only [lnStdev, if_neg h1]
        congr 1
        rw [Finset.sum_congr rfl fun k _ => pow_two (x ((dims.drop axis).prod * i + k))]
        ring
      · simp only [lnOut, hdiv]

/-- C1 witness: the theorem instantiated at a concrete rank-2 shape and
concrete row and column indices. -/
theorem layerNorm_forward_formulas_witness :
    exceptOk (layerNormRun [5] 1 1 (fun _ => 0)) = false ∧
    lnMean [2, 3] 1 (fun _ => 0) 0 = (1 / (3 : ℝ)) * ∑ k ∈ Finset.range 3, (0 : ℝ) ∧
    lnOut [2, 3] 1 1 (fun _ => 0) (3 * 0 + 1) =
      ((0 : ℝ) - lnMean [2, 3] 1 (fun _ => 0) 0) / lnStdev [2, 3] 1 1 (fun _ => 0) 0 := by
  have h := (layerNorm_forward_formulas [2, 3] 1 1 (fun _ => 0) 2 3 (by decide)
    (by decide)).2.2 (by decide) 0 1 (by decide) (by decide)
  exact ⟨(layerNorm_forward_formulas [5] 1 1 (fun _ => 0) 5 1 (by decide) (by decide)).1
    (by decide), h.1, h.2.2⟩

/-- C7: the dense Adagrad update computes nh[i] = decay * h[i] + g[i]^2 and
nw[i] = w[i] + lr[0] * g[i] / (sqrt(nh[i]) + epsilon) for every element
index i, and the SparseAdagrad constructor rejects any decay argument
different from 1.0 with a fatal check. -/
theorem adagradUpdate_formulas (N : ℕ) (w g h : ℕ → ℝ) (eps decay lr0 : ℝ)
    (d : ℚ) (i : ℕ) (hi : i < N) :
    adagradUpdateNH decay h g i = decay * h i + g i ^ 2 ∧
    adagradUpdateNW w g h eps decay lr0 i =
      w i + lr0 * g i / (Real.sqrt (adagradUpdateNH decay h g i) + eps) ∧
    (d ≠ 1 → exceptOk (hipSparseAdagradCtor d) = false) ∧
    hipSparseAdagradCtor 1 = .ok () := by
  refine ⟨?_, rfl, ?_, rfl⟩
  · simp only [adagradUpdateNH]; ring
  · intro hd
    simp [hipSparseAdagradCtor, hd, exceptOk]

/-- C7 witness: the theorem instantiated at concrete inputs. -/
theorem adagradUpdate_formulas_witness :
    adagradUpdateNH 1 (fun _ => 0) (fun _ => 2) 0 = 1 * 0 + 2 ^ 2 ∧
    exceptOk (hipSparseAdagradCtor 2) = false := by
  have h := adagradUpdate_formulas 1 (fun _ => 0) (fun _ => 2) (fun _ => 0) 0 1 0 2 0
    (by decide)
  exact ⟨h.1, h.2.2.1 (by norm_num)⟩

/-- C2: for a source tensor of rank >= 1 and a rank-1 boolean mask of
matching outer size, BooleanMask succeeds and its output has src's shape
with dimension 0 replaced by the number of true mask entries; its k-th
outer slice is src's i_k-th slice, where i_0 < i_1 < ... are exactly the
positions at which the mask is true; a requested second output holds those
indices. -/
theorem booleanMask_selects_true_rows (src : HTensor ℚ) (mask : HTensor Bool)
    (wantIndices : Bool) (row : ℕ) (idxs : List ℕ)
    (hrow : row = (src.dims.drop 1).prod)
    (hidx : idxs = booleanMaskIndices (mask.dims.getD 0 0) mask.data)
    (h1 : 1 ≤ src.dims.length) (h2 : mask.dims.length = 1)
    (h3 : src.dims.getD 0 0 = mask.dims.getD 0 0) :
    booleanMaskRun src mask wantIndices =
      .ok (booleanMaskDest src mask,
        if wantIndices then some ⟨[idxs.length], fun k => idxs.getD k 0⟩ else none) ∧
    (booleanMaskDest src mask).dims = src.dims.set 0 idxs.length ∧
    List.Sorted (· < ·) idxs ∧
    (∀ p, p ∈ idxs ↔ p < mask.dims.getD 0 0 ∧ mask.data p = true) ∧
    (∀ k t, k < idxs.length → t < row →
      (booleanMaskDest src mask).data (k * row + t) =
        src.data (idxs.getD k 0 * row + t)) := by
  subst hrow hidx
  refine ⟨?_, rfl, ?_, ?_, ?_⟩
  · rw [booleanMaskRun, if_neg (not_lt.mpr h1), if_neg (fun h => h h2),
      if_neg (fun h => h h3)]
  · exact (List.pairwise_lt_range _).filter _
  · intro p
    simp [booleanMaskIndices, List.mem_filter, List.mem_range]
  · intro k t hk ht
    have hrpos : 0 < (src.dims.drop 1).prod := lt_of_le_of_lt (Nat.zero_le t) ht
    have hbound : k * (src.dims.drop 1).prod + t <
        (booleanMaskIndices (mask.dims.getD 0 0) mask.data).length *
          (src.dims.drop 1).prod := by
      calc k * (src.dims.drop 1).prod + t
          < (k + 1) * (src.dims.drop 1).prod := by
            rw [Nat.add_mul, Nat.one_mul]; exact Nat.add_lt_add_left ht _
        _ ≤ (booleanMaskIndices (mask.dims.getD 0 0) mask.data).length *
              (src.dims.drop 1).prod := Nat.mul_le_mul_right _ hk
    have hdiv : (k * (src.dims.drop 1).prod + t) / (src.dims.drop 1).prod = k := by
      rw [Nat.mul_comm k, Nat.mul_add_div hrpos, Nat.div_eq_of_lt ht, Nat.add_zero]
    have hmod : (k * (src.dims.drop 1).prod + t) % (src.dims.drop 1).prod = t := by
      rw [Nat.mul_comm k, Nat.mul_add_mod, Nat.mod_eq_of_lt ht]
    simp only [booleanMaskDest, if_pos hbound, hdiv, hmod]

/-- C2 witness: the theorem instantiated at a 3x2 source, a mask selecting
rows 0 and 2, and slice position (k, t) = (1, 0). -/
theorem booleanMask_selects_true_rows_witness :
    (booleanMaskDest ⟨[3, 2], fun t => (t : ℚ)⟩ ⟨[3], fun i => i == 0 || i == 2⟩).dims =
      [3, 2].set 0 (booleanMaskIndices 3 (fun i => i == 0 || i == 2)).length ∧
    (booleanMaskDest ⟨[3, 2], fun t => (t : ℚ)⟩ ⟨[3], fun i => i == 0 || i == 2⟩).data
        (1 * 2 + 0) =
      (⟨[3, 2], fun t => (t : ℚ)⟩ : HTensor ℚ).data
        ((booleanMaskIndices 3 (fun i => i == 0 || i == 2)).getD 1 0 * 2 + 0) := by
  have h := booleanMask_selects_true_rows ⟨[3, 2], fun t => (t : ℚ)⟩
    ⟨[3], fun i => i == 0 || i == 2⟩ true 2
    (booleanMaskIndices 3 (fun i => i == 0 || i == 2)) (by decide) rfl
    (by decide) (by decide) (by decide)
  exact ⟨h.2.1, h.2.2.2.2 1 0 (by decide) (by decide)⟩

theorem scatterAddFold_apply (tgt : ℕ → ℕ) (vals : ℕ → ℚ) (init : ℕ → ℚ) (N j : ℕ) :
    scatterAddFold N tgt vals init j =
      init j + ∑ i ∈ Finset.range N, if tgt i = j then vals i else 0 := by
  induction N with
  | zero => simp [scatterAddFold]
  | succ n ih =>
    have hstep : scatterAddFold (n + 1) tgt vals init =
        Function.update (scatterAddFold n tgt vals init) (tgt n)
          (scatterAddFold n tgt vals init (tgt n) + vals n) := by
      simp [scatterAddFold, List.range_succ]
    rw [hstep, Finset.sum_range_succ, Function.update_apply]
    by_cases h : j = tgt n
    · subst h
      rw [if_pos rfl, if_pos rfl, ih]
      ring
    · rw [if_neg h, ih, if_neg (fun hh => h hh.symm)]
      ring

theorem sum_range_add_split (f : ℕ → ℚ) (m n : ℕ) :
    ∑ i ∈ Finset.range (m + n), f i =
      (∑ i ∈ Finset.range m, f i) + ∑ t ∈ Finset.range n, f (m + t) := by
  induction n with
  | zero => simp
  | succ k ih =>
    rw [Nat.add_succ, Finset.sum_range_succ, Finset.sum_range_succ, ih]
    ring

theorem sparseToDense_flat_to_rows (b L r s : ℕ) (hs : s < b) (idx : ℕ → ℤ)
    (v : ℕ → ℚ) (hge : ∀ j, j < L → 0 ≤ idx j) :
    (∑ i ∈ Finset.range (b * L),
        if sparseToDenseTgt b idx i = b * r + s then v i else 0) =
      ∑ j ∈ Finset.range L, if idx j = (r : ℤ) then v (j * b + s) else 0 := by
  have hb : 0 < b := lt_of_le_of_lt (Nat.zero_le s) hs
  induction L with
  | zero => simp
  | succ n ih =>
    rw [Nat.mul_succ, sum_range_add_split, Finset.sum_range_succ,
      ih (fun j hj => hge j (Nat.lt_succ_of_lt hj))]
    congr 1
    have h0 : 0 ≤ idx n := hge n (Nat.lt_succ_self n)
    have hidx : ∀ t, t < b →
        sparseToDenseTgt b idx (b * n + t) = b * (idx n).toNat + t := by
      intro t htb
      unfold sparseToDenseTgt
      have hdivv : (b * n + t) / b = n := by
        rw [Nat.mul_add_div hb, Nat.div_eq_of_lt htb, Nat.add_zero]
      have hmodd : (b * n + t) % b = t := by
        rw [Nat.mul_add_mod, Nat.mod_eq_of_lt htb]
      rw [hdivv, hmodd]
      rcases Int.eq_ofNat_of_zero_le h0 with ⟨k, hk⟩
      rw [hk]
      norm_cast
    rw [Finset.sum_congr rfl
      (fun t htmem => by rw [hidx t (Finset.mem_range.mp htmem)])]
    have hcond : ∀ t, t < b →
        ((b * (idx n).toNat + t = b * r + s) ↔ (idx n = (r : ℤ) ∧ t = s)) := by
      intro t htb
      constructor
      · intro he
        have ht' : t = s := by
          have h1 := congrArg (· % b) he
          simpa [Nat.mul_add_mod, Nat.mod_eq_of_lt htb, Nat.mod_eq_of_lt hs] using h1
        subst ht'
        have hmul : b * (idx n).toNat = b * r := by omega
        have := Nat.eq_of_mul_eq_mul_left hb hmul
        exact ⟨by omega, rfl⟩
      · rintro ⟨hh1, hh2⟩
        have hh3 : (idx n).toNat = r := by omega
        rw [hh3, hh2]
    rw [Finset.sum_congr rfl (fun t htmem =>
      if_congr (hcond t (Finset.mem_range.mp htmem)) rfl rfl)]
    by_cases ha : idx n = (r : ℤ)
    · simp only [ha, true_and, if_true]
      rw [Finset.sum_ite_eq' (Finset.range b) s (fun t => v (b * n + t))]
      rw [if_pos (Finset.mem_range.mpr hs), Nat.mul_comm b n]
    · simp [ha]

/-- C3: SparseToDense with rank-1 indices of length L and values of rank
>= 1 with values.dim(0) = L produces an output of shape
[output_first_dim] ++ values.dims[1:], zero-initialised and scatter-added:
each output position (r, s) holds the sum of values[j, s] over all j with
indices[j] = r, so duplicate indices have their value slices summed. -/
theorem sparseToDense_scatter_sums (ofd : ℕ) (indices : HTensor ℤ) (values : HTensor ℚ)
    (block L : ℕ) (hb : block = (values.dims.drop 1).prod) (hL : L = indices.size)
    (h1 : indices.dims.length = 1) (h2 : 1 ≤ values.dims.length)
    (h3 : indices.size = values.dims.getD 0 0)
    (hidx : ∀ j, j < L → 0 ≤ indices.data j ∧ indices.data j < (ofd : ℤ)) :
    sparseToDenseRun ofd indices values = .ok (sparseToDenseOut ofd indices values) ∧
    (sparseToDenseOut ofd indices values).dims = values.dims.set 0 ofd ∧
    (∀ r s, r < ofd → s < block →
      (sparseToDenseOut ofd indices values).data (r * block + s) =
        ∑ j ∈ Finset.range L,
          if indices.data j = (r : ℤ) then values.data (j * block + s) else 0) := by
  subst hb hL
  refine ⟨?_, rfl, ?_⟩
  · rw [sparseToDenseRun, if_neg (fun h => h h1), if_neg (not_lt.mpr h2),
      if_neg (fun h => h h3)]
  · intro r s hr hs
    simp only [sparseToDenseOut]
    rw [scatterAddFold_apply, Nat.mul_comm r]
    rw [sparseToDense_flat_to_rows _ _ _ _ hs _ _ (fun j hj => (hidx j hj).1)]
    simp

/-- C3 witness: the theorem at indices [1, 1] (a duplicate), values
[1, 2], output_first_dim 3, evaluated at output row 1. -/
theorem sparseToDense_scatter_sums_witness :
    (sparseToDenseOut 3 ⟨[2], fun _ => 1⟩ ⟨[2], fun j => (j : ℚ) + 1⟩).data (1 * 1 + 0) =
      ∑ j ∈ Finset.range 2,
        if (⟨[2], fun _ => 1⟩ : HTensor ℤ).data j = (1 : ℤ)
        then (⟨[2], fun j => (j : ℚ) + 1⟩ : HTensor ℚ).data (j * 1 + 0) else 0 := by
  have h := sparseToDense_scatter_sums 3 ⟨[2], fun _ => 1⟩ ⟨[2], fun j => (j : ℚ) + 1⟩
    1 2 (by decide) (by decide) (by decide) (by decide) (by decide) (by decide)
  exact h.2.2 1 0 (by decide) (by decide)

/-- C5: each operator rejects invalid input shapes by a fatal
assertion-style check before producing any output: BooleanMask requires src
rank >= 1, mask rank exactly 1 and matching outer dimension; BooleanUnmask
requires every mask rank 1 of the first mask's size and every value rank 1;
SparseToDense requires indices rank 1, values rank >= 1 and
indices.size() = values.dim(0). -/
theorem operator_shape_checks (src : HTensor ℚ) (mask : HTensor Bool) (w : Bool)
    (inputs : List (HTensor Bool × HTensor ℚ)) (maskSize : ℕ)
    (hms : maskSize = (inputs.headD default).1.size)
    (ofd : ℕ) (indices : HTensor ℤ) (values : HTensor ℚ) :
    (src.dims.length < 1 ∨ mask.dims.length ≠ 1 ∨
        src.dims.getD 0 0 ≠ mask.dims.getD 0 0 →
      exceptOk (booleanMaskRun src mask w) = false) ∧
    ((∃ p ∈ inputs, p.1.dims.length ≠ 1 ∨ p.1.size ≠ maskSize ∨
        p.2.dims.length ≠ 1) →
      exceptOk (booleanUnmaskRun inputs) = false) ∧
    (indices.dims.length ≠ 1 ∨ values.dims.length < 1 ∨
        indices.size ≠ values.dims.getD 0 0 →
      exceptOk (sparseToDenseRun ofd indices values) = false) := by
  subst hms
  refine ⟨?_, ?_, ?_⟩
  · intro h
    rw [booleanMaskRun]
    split_ifs <;> first | rfl | tauto
  · intro h
    have hall : (inputs.all fun p =>
        p.1.dims.length == 1 && p.1.size == (inputs.headD default).1.size &&
          p.2.dims.length == 1) = false := by
      rcases h with ⟨p, hp, hviol⟩
      by_contra hcon
      rw [Bool.not_eq_false, List.all_eq_true] at hcon
      have ha := hcon p hp
      simp only [Bool.and_eq_true, beq_iff_eq] at ha
      tauto
    have hcond : ¬ ((inputs.all fun p =>
        p.1.dims.length == 1 && p.1.size == (inputs.headD default).1.size &&
          p.2.dims.length == 1) = true) := by
      intro hx
      rw [hx] at hall
      cases hall
    unfold booleanUnmaskRun
    rw [if_pos hcond]
    rfl
  · intro h
    rw [sparseToDenseRun]
    split_ifs <;> first | rfl | tauto

/-- C5 witness: the theorem at a rank-0 BooleanMask source, a rank-2
BooleanUnmask mask and a rank-2 SparseToDense index tensor. -/
theorem operator_shape_checks_witness :
    exceptOk (booleanMaskRun ⟨[], fun _ => 0⟩ ⟨[1], fun _ => true⟩ false) = false ∧
    exceptOk (booleanUnmaskRun [(⟨[1, 1], fun _ => true⟩, ⟨[1], fun _ => 0⟩)]) = false ∧
    exceptOk (sparseToDenseRun 1 ⟨[1, 1], fun _ => 0⟩ ⟨[1], fun _ => 0⟩) = false := by
  have h := operator_shape_checks ⟨[], fun _ => 0⟩ ⟨[1], fun _ => true⟩ false
    [(⟨[1, 1], fun _ => true⟩, ⟨[1], fun _ => 0⟩)] 1 (by decide) 1
    ⟨[1, 1], fun _ => 0⟩ ⟨[1], fun _ => 0⟩
  refine ⟨h.1 (by decide), h.2.1 ?_, h.2.2 (by decide)⟩
  exact ⟨(⟨[1, 1], fun _ => true⟩, ⟨[1], fun _ => 0⟩), List.Mem.head _, by decide⟩

/-- C6 (amended): in "sequence" mode with neither a batch argument nor a
repeat_from_axis argument, SequenceMask produces, over the N x M view,
out[i,j] = in[i,j] when j < seq_lengths[i] and out[i,j] = the fill value
when j >= seq_lengths[i]; any mode string other than the six supported
modes is a fatal error. -/
theorem sequenceMask_sequence_mode (fv : ℚ) (N M : ℕ) (seq win : ℕ → ℤ)
    (radius : ℤ) (x : ℕ → ℚ) (i j : ℕ) (hi : i < N) (hj : j < M) :
    seqMaskRun "sequence" false fv N M none none seq win radius x =
      .ok (sequenceMaskKernelNB M seq fv x) ∧
    sequenceMaskKernelNB M seq fv x (i * M + j) =
      (if (j : ℤ) ≥ seq i then fv else x (i * M + j)) ∧
    (∀ mode, mode ∉ (["sequence", "window", "upper", "lower", "upperdiag",
        "lowerdiag"] : List String) →
      exceptOk (seqMaskRun mode false fv N M none none seq win radius x) = false) := by
  have hM : 0 < M := lt_of_le_of_lt (Nat.zero_le j) hj
  have hdiv : (i * M + j) / M = i := by
    rw [Nat.mul_comm i, Nat.mul_add_div hM, Nat.div_eq_of_lt hj, Nat.add_zero]
  have hmod : (i * M + j) % M = j := by
    rw [Nat.mul_comm i, Nat.mul_add_mod, Nat.mod_eq_of_lt hj]
  refine ⟨rfl, ?_, ?_⟩
  · rw [sequenceMaskKernelNB, hdiv, hmod]
  · intro mode hmem
    simp only [List.mem_cons, List.not_mem_nil, or_false, not_or] at hmem
    obtain ⟨n1, n2, n3, n4, n5, n6⟩ := hmem
    rw [seqMaskRun]
    rw [if_neg n1, if_neg n2, if_neg n3, if_neg n4, if_neg n5, if_neg n6]
    rfl

/-- C6 counterexample: with a repeat_from_axis argument present (and no
batch argument), sequence mode disagrees with the claimed formula: for a
1 x 2 input with repeated_dims = 2, seq_lengths = [1], fill 0 and input
constantly 5, the operator keeps in[0,1] = 5 while the claimed formula
requires the fill value 0 at (i,j) = (0,1) since 1 >= seq_lengths[0]. -/
theorem sequenceMask_repeat_breaks_claim :
    (seqMaskRun "sequence" false 0 1 2 none (some 2) (fun _ => 1) (fun _ => 0) 0
        (fun _ => 5)).map (fun f => f (0 * 2 + 1)) = Except.ok 5 ∧
    (if ((1 : ℕ) : ℤ) ≥ (1 : ℤ) then (0 : ℚ) else 5) = 0 ∧ (5 : ℚ) ≠ 0 := by
  refine ⟨rfl, rfl, by norm_num⟩

/-- C6 witness: the amended theorem at concrete sizes and indices. -/
theorem sequenceMask_sequence_mode_witness :
    seqMaskRun "sequence" false 7 2 3 none none (fun i => (i : ℤ)) (fun _ => 0) 0
        (fun t => (t : ℚ)) =
      .ok (sequenceMaskKernelNB 3 (fun i => (i : ℤ)) 7 (fun t => (t : ℚ))) ∧
    sequenceMaskKernelNB 3 (fun i => (i : ℤ)) 7 (fun t => (t : ℚ)) (1 * 3 + 2) =
      (if ((2 : ℕ) : ℤ) ≥ ((1 : ℕ) : ℤ) then (7 : ℚ) else ((1 * 3 + 2 : ℕ) : ℚ)) ∧
    exceptOk (seqMaskRun "diag" false 7 2 3 none none (fun i => (i : ℤ)) (fun _ => 0) 0
        (fun t => (t : ℚ))) = false := by
  have h := sequenceMask_sequence_mode 7 2 3 (fun i => (i : ℤ)) (fun _ => 0) 0
    (fun t => (t : ℚ)) 1 2 (by decide) (by decide)
  exact ⟨h.1, h.2.1, h.2.2 "diag" (by decide)⟩

/-- C9: in gradient mode the fill value used for masked positions is 0 in
every mode regardless of the fill_val argument (the two runs agree for any
two fill arguments, a masked position yields 0), while the non-gradient
forward pass uses the configured fill value. -/
theorem sequenceMask_grad_uses_zero_fill (mode : String) (fv1 fv2 fv : ℚ)
    (N M : ℕ) (batchDim repeatDims : Option ℕ) (seq win : ℕ → ℤ) (radius : ℤ)
    (x : ℕ → ℚ) (i j : ℕ) (hj : j < M) (hmask : (j : ℤ) ≥ seq i) :
    seqMaskRun mode true fv1 N M batchDim repeatDims seq win radius x =
      seqMaskRun mode true fv2 N M batchDim repeatDims seq win radius x ∧
    seqMaskRun "sequence" true fv N M none none seq win radius x =
      .ok (sequenceMaskKernelNB M seq 0 x) ∧
    sequenceMaskKernelNB M seq 0 x (i * M + j) = 0 ∧
    seqMaskRun "sequence" false fv N M none none seq win radius x =
      .ok (sequenceMaskKernelNB M seq fv x) := by
  have hM : 0 < M := lt_of_le_of_lt (Nat.zero_le j) hj
  have hdiv : (i * M + j) / M = i := by
    rw [Nat.mul_comm i, Nat.mul_add_div hM, Nat.div_eq_of_lt hj, Nat.add_zero]
  have hmod : (i * M + j) % M = j := by
    rw [Nat.mul_comm i, Nat.mul_add_mod, Nat.mod_eq_of_lt hj]
  refine ⟨rfl, rfl, ?_, rfl⟩
  rw [sequenceMaskKernelNB, hdiv, hmod, if_pos hmask]

/-- C9 witness: the theorem at a concrete configuration and masked
position. -/
theorem sequenceMask_grad_uses_zero_fill_witness :
    seqMaskRun "upper" true 3 2 2 none none (fun _ => 1) (fun _ => 0) 0 (fun _ => 9) =
      seqMaskRun "upper" true 4 2 2 none none (fun _ => 1) (fun _ => 0) 0 (fun _ => 9) ∧
    sequenceMaskKernelNB 2 (fun _ => 1) 0 (fun _ => 9) (0 * 2 + 1) = 0 := by
  have h := sequenceMask_grad_uses_zero_fill "upper" 3 4 5 2 2 none none
    (fun _ => 1) (fun _ => 0) 0 (fun _ => 9) 0 1 (by decide) (by decide)
  exact ⟨h.1, h.2.2.1⟩

theorem rmacScaleGo_fst_ge (Wd Hd : ℕ) :
    ∀ fuel l rem, l ≤ (rmacScaleGo Wd Hd fuel l rem).1 := by
  intro fuel
  induction fuel with
  | zero => intro l rem; exact Nat.le_refl l
  | succ f ih =>
    intro l rem
    rw [rmacScaleGo]
    split_ifs
    · exact Nat.le_refl l
    · exact Nat.le_trans (Nat.le_succ l) (ih (l + 1) _)

theorem rmacClampCoord_bounds (limit rs : ℕ) (b : ℚ) (i : ℕ)
    (hb : 0 ≤ b) (hrs : rs ≤ limit) :
    0 ≤ rmacClampCoord limit rs b i ∧ rmacClampCoord limit rs b i + rs ≤ limit := by
  have hc : 0 ≤ ⌊b * (i : ℚ)⌋ := Int.floor_nonneg.mpr (mul_nonneg hb (Nat.cast_nonneg i))
  simp only [rmacClampCoord]
  split_ifs with h <;> constructor <;> omega

/-- C8: every ROI written by RMACRegionsKernel lies inside the image: for
W, H >= 1 the output [batch_id, x1, y1, x2, y2] has 0 <= x1, 0 <= y1,
x2 = x1 + region_size - 1 <= W - 1 and y2 = y1 + region_size - 1 <= H - 1,
where region_size = 2 * min(H, W) / (l + 1) for the ROI's scale l >= 1. -/
theorem rmac_roi_inside_image (W H nr Wd Hd index : ℕ) (hW : 1 ≤ W) (hH : 1 ≤ H)
    (l rs : ℕ) (hl : l = (rmacFindScale Wd Hd (index % nr)).1)
    (hrs : rs = 2 * min H W / (l + 1)) :
    1 ≤ l ∧
    (rmacRegionOutput W H nr Wd Hd index).x2 =
      (rmacRegionOutput W H nr Wd Hd index).x1 + rs - 1 ∧
    (rmacRegionOutput W H nr Wd Hd index).y2 =
      (rmacRegionOutput W H nr Wd Hd index).y1 + rs - 1 ∧
    0 ≤ (rmacRegionOutput W H nr Wd Hd index).x1 ∧
    0 ≤ (rmacRegionOutput W H nr Wd Hd index).y1 ∧
    (rmacRegionOutput W H nr Wd Hd index).x2 ≤ (W : ℤ) - 1 ∧
    (rmacRegionOutput W H nr Wd Hd index).y2 ≤ (H : ℤ) - 1 := by
  have hl1 : 1 ≤ l := hl ▸ rmacScaleGo_fst_ge Wd Hd _ 1 _
  have hrsmin : rs ≤ min H W := by
    rw [hrs]
    calc 2 * min H W / (l + 1) ≤ 2 * min H W / 2 :=
          Nat.div_le_div_left (by omega) (by norm_num)
      _ = min H W := by omega
  have hrsW : rs ≤ W := le_trans hrsmin (Nat.min_le_right H W)
  have hrsH : rs ≤ H := le_trans hrsmin (Nat.min_le_left H W)
  have hbw : (0 : ℚ) ≤ (if 1 < l + Wd then
      ((W : ℚ) - ((2 * min H W / (l + 1) : ℕ) : ℚ)) / ((l : ℚ) + (Wd : ℚ) - 1)
    else 0) := by
    split_ifs with hcond
    · apply div_nonneg
      · rw [sub_nonneg, ← hrs]
        exact_mod_cast hrsW
      · have : (2 : ℚ) ≤ (l : ℚ) + (Wd : ℚ) := by exact_mod_cast hcond
        linarith
    · exact le_refl 0
  have hbh : (0 : ℚ) ≤ (if 1 < l + Hd then
      ((H : ℚ) - ((2 * min H W / (l + 1) : ℕ) : ℚ)) / ((l : ℚ) + (Hd : ℚ) - 1)
    else 0) := by
    split_ifs with hcond
    · apply div_nonneg
      · rw [sub_nonneg, ← hrs]
        exact_mod_cast hrsH
      · have : (2 : ℚ) ≤ (l : ℚ) + (Hd : ℚ) := by exact_mod_cast hcond
        linarith
    · exact le_refl 0
  subst hl
  subst hrs
  have hx := rmacClampCoord_bounds W (2 * min H W / ((rmacFindScale Wd Hd (index % nr)).1 + 1))
    (if 1 < (rmacFindScale Wd Hd (index % nr)).1 + Wd then
      ((W : ℚ) -
          ((2 * min H W / ((rmacFindScale Wd Hd (index % nr)).1 + 1) : ℕ) : ℚ)) /
        (((rmacFindScale Wd Hd (index % nr)).1 : ℚ) + (Wd : ℚ) - 1)
    else 0)
    ((rmacFindScale Wd Hd (index % nr)).2 / ((rmacFindScale Wd Hd (index % nr)).1 + Hd))
    hbw hrsW
  have hy := rmacClampCoord_bounds H (2 * min H W / ((rmacFindScale Wd Hd (index % nr)).1 + 1))
    (if 1 < (rmacFindScale Wd Hd (index % nr)).1 + Hd then
      ((H : ℚ) -
          ((2 * min H W / ((rmacFindScale Wd Hd (index % nr)).1 + 1) : ℕ) : ℚ)) /
        (((rmacFindScale Wd Hd (index % nr)).1 : ℚ) + (Hd : ℚ) - 1)
    else 0)
    ((rmacFindScale Wd Hd (index % nr)).2 % ((rmacFindScale Wd Hd (index % nr)).1 + Hd))
    hbh hrsH
  refine ⟨hl1, rfl, rfl, hx.1, hy.1, ?_, ?_⟩
  · have := hx.2
    simp only [rmacRegionOutput]
    omega
  · have := hy.2
    simp only [rmacRegionOutput]
    omega

/-- C8 witness: the theorem at a concrete 3 x 2 feature map. -/
theorem rmac_roi_inside_image_witness :
    0 ≤ (rmacRegionOutput 3 2 5 1 0 7).x1 ∧
    (rmacRegionOutput 3 2 5 1 0 7).x2 ≤ (3 : ℤ) - 1 ∧
    (rmacRegionOutput 3 2 5 1 0 7).y2 ≤ (2 : ℤ) - 1 := by
  have h := rmac_roi_inside_image 3 2 5 1 0 7 (by decide) (by decide)
    (rmacFindScale 1 0 (7 % 5)).1 (2 * min 2 3 / ((rmacFindScale 1 0 (7 % 5)).1 + 1))
    rfl rfl
  exact ⟨h.2.2.2.1, h.2.2.2.2.2.1, h.2.2.2.2.2.2⟩

/-- C10: on empty input these operators return success immediately, launch
no kernel and leave the outputs untouched: SparseAdagrad when INDICES is
empty or GRAD has size 0, RowWiseSparseAdagrad when GRAD has size 0, and
RMACRegions when the input has size 0 (its output is not even resized). -/
theorem empty_input_no_kernel (param mom : HTensor ℝ) (indices : HTensor ℤ)
    (grad : HTensor ℝ) (lr : HTensor ℝ) (eps : ℝ)
    (X oldOut : HTensor ℚ) (overlap : ℚ) (scales : ℕ)
    (hok1 : param.size = mom.size) (hok2 : lr.size = 1)
    (hok3 : (param.dims.drop 1).prod = (grad.dims.drop indices.dims.length).prod) :
    (indices.size = 0 →
      hipSparseAdagradRun param mom indices grad lr eps =
        .ok (false, param.data, mom.data)) ∧
    (grad.size = 0 →
      hipSparseAdagradRun param mom indices grad lr eps =
        .ok (false, param.data, mom.data)) ∧
    (grad.size = 0 →
      rowWiseSparseAdagradRun param mom indices grad lr eps =
        (false, param.data, mom.data)) ∧
    (X.size = 0 → rmacRegionsRun X overlap scales oldOut = (oldOut, false)) := by
  refine ⟨?_, ?_, ?_, ?_⟩
  · intro h
    rw [hipSparseAdagradRun, if_neg (fun hh => hh hok1), if_neg (fun hh => hh hok2),
      if_neg (fun hh => hh hok3), if_pos h]
  · intro h
    rw [hipSparseAdagradRun, if_neg (fun hh => hh hok1), if_neg (fun hh => hh hok2),
      if_neg (fun hh => hh hok3)]
    by_cases hi : indices.size = 0
    · rw [if_pos hi]
    · rw [if_neg hi, if_pos h]
  · intro h
    rw [rowWiseSparseAdagradRun, if_pos h]
  · intro h
    rw [rmacRegionsRun, if_pos h]

/-- C10 witness: the theorem at concrete empty inputs. -/
theorem empty_input_no_kernel_witness :
    hipSparseAdagradRun ⟨[1], fun _ => 0⟩ ⟨[1], fun _ => 0⟩ ⟨[0], fun _ => 0⟩
        ⟨[0], fun _ => 0⟩ ⟨[1], fun _ => 0⟩ 0 =
      .ok (false, (⟨[1], fun _ => 0⟩ : HTensor ℝ).data,
        (⟨[1], fun _ => 0⟩ : HTensor ℝ).data) ∧
    rmacRegionsRun ⟨[0], fun _ => 0⟩ 0 4 ⟨[2], fun _ => 9⟩ =
      ((⟨[2], fun _ => 9⟩ : HTensor ℚ), false) := by
  have h := empty_input_no_kernel ⟨[1], fun _ => 0⟩ ⟨[1], fun _ => 0⟩ ⟨[0], fun _ => 0⟩
    ⟨[0], fun _ => 0⟩ ⟨[1], fun _ => 0⟩ 0 ⟨[0], fun _ => 0⟩ ⟨[2], fun _ => 9⟩ 0 4
    (by decide) (by decide) (by decide)
  exact ⟨h.1 (by decide), h.2.2.2 (by decide)⟩
